import Mathlib

/-!
Verification model of the path-sandboxing file-access layer of
`ha-mcp-file-server` (`src/file_handler.py` and the file-tool dispatch in
`src/mcp_server.py`).

Modelling conventions:
* A canonical absolute path (the output of `Path.resolve()`) is a list of
  path components (`AbsPath`).  A caller-supplied path (`RawPath`) records
  whether it was absolute and its raw components, which may still contain
  `"."`, `".."` or empty components.
* The filesystem is a finite association list from canonical paths to nodes
  (regular file, directory, or symbolic link); the root `[]` always exists
  and is a directory.  The process working directory (used by
  `Path.resolve()` on relative paths) is part of the filesystem state.
* Python `str` values (file contents, lines, search patterns) are modelled
  as `List Char`, with executable ports of the `str` operations the source
  uses (`lower`, `strip`, `splitlines`, substring test, UTF-8 length).
* `Path.resolve()` is modelled by `resolveComps`, which walks the
  components left to right, eliminating `.`/`..` and following symbolic
  links, with a fuel bound standing in for the OS symlink-loop guard; the
  returned flag is `true` when resolution completed without hitting the
  loop guard.
* Python exceptions raised by the handler are modelled by the error type
  `Err`; each operation returns `Except Err α` (plus the new filesystem
  state for the mutating operations).
-/

namespace HaMcp

/-- Characters of a Python `str` value. -/
abbrev Str := List Char

/-- A canonical absolute path, as the list of its components. -/
abbrev AbsPath := List String

/-- A caller-supplied path before canonicalization. -/
structure RawPath where
  absolute : Bool
  comps : List String
deriving DecidableEq, Repr

/-- Contents of a regular file: decodable text, or binary data of a given
byte length (bytes that raise `UnicodeDecodeError` when decoded). -/
inductive FileData where
  | text (s : Str)
  | binary (nbytes : Nat)
deriving DecidableEq, Repr

/-- `len(s.encode('utf-8'))` for a text value. -/
def utf8Len (s : Str) : Nat := s.foldl (fun n c => n + c.utf8Size) 0

/-- `os.stat(...).st_size` of a file. -/
def FileData.size : FileData → Nat
  | .text s => utf8Len s
  | .binary n => n

/-- A filesystem node. -/
inductive Node where
  | file (d : FileData)
  | dir
  | link (target : RawPath)
deriving DecidableEq, Repr

/-- Filesystem state: finite map from canonical absolute paths to nodes,
plus the process working directory. -/
structure FS where
  entries : List (AbsPath × Node)
  cwd : AbsPath
deriving DecidableEq, Repr

/-- Node stored at a canonical path; the root `[]` is always a directory. -/
def FS.nodeAt (fs : FS) (p : AbsPath) : Option Node :=
  if p = [] then some .dir else fs.entries.lookup p

/-- The symlink target at a canonical path, when that path is a symlink. -/
def FS.linkAt (fs : FS) (p : AbsPath) : Option RawPath :=
  match fs.nodeAt p with
  | some (.link t) => some t
  | _ => none

/-- OS bound on the number of symlinks followed during one resolution
(stands in for the kernel's `ELOOP` limit / CPython's loop detection). -/
def symlinkFuel : Nat := 40

/-- Core of `Path.resolve()`: process the components `rest` on top of the
already-canonical prefix `cur`, eliminating `""`/`"."`/`".."` and following
symlinks.  `fuel` bounds how many symlinks may be followed; when it runs
out, remaining symlink components are kept literally and the flag of the
result is `false` (resolution hit the loop guard). -/
def resolveComps (fs : FS) : Nat → AbsPath → List String → AbsPath × Bool
  | _, cur, [] => (cur, true)
  | fuel, cur, c :: rest =>
    if c = "" ∨ c = "." then resolveComps fs fuel cur rest
    else if c = ".." then resolveComps fs fuel cur.dropLast rest
    else
      match fs.linkAt (cur ++ [c]) with
      | some tgt =>
        match fuel with
        | 0 =>
          let r := resolveComps fs 0 (cur ++ [c]) rest
          (r.1, false)
        | fuel' + 1 =>
          if tgt.absolute then resolveComps fs fuel' [] (tgt.comps ++ rest)
          else resolveComps fs fuel' cur (tgt.comps ++ rest)
      | none => resolveComps fs fuel (cur ++ [c]) rest
termination_by fuel _ rest => (fuel, rest.length)

/-- `Path(p).resolve()` together with the loop-guard flag. -/
def FS.resolveFull (fs : FS) (p : RawPath) : AbsPath × Bool :=
  resolveComps fs symlinkFuel (if p.absolute then [] else fs.cwd) p.comps

/-- `Path(p).resolve()`: the canonical, symlink-resolved absolute path. -/
def FS.resolve (fs : FS) (p : RawPath) : AbsPath := (fs.resolveFull p).1

/-- The typed errors of the handler (`PathViolation` is the `ValueError`
raised by `_validate_path`; the others correspond to the exceptions listed
in the error taxonomy of the design). -/
inductive Err where
  | pathViolation
  | notFound
  | notAFile
  | notADirectory
  | tooLarge
  | readOnly
  | alreadyExists
  | notEmpty
  | isADirectory
  | ioError
deriving DecidableEq, Repr

/-- The `FileHandler` configuration (`__init__`): allowed directories
already canonicalized, the read-only flag, and the size limit in bytes. -/
structure FileHandler where
  allowed_dirs : List AbsPath
  read_only : Bool
  max_file_size_bytes : Nat
deriving DecidableEq, Repr

/-- `FileHandler.__init__`: resolves every allowed directory and converts
the size limit from megabytes to bytes. -/
def FileHandler.init (fs : FS) (dirs : List RawPath) (ro : Bool) (max_mb : Nat) :
    FileHandler :=
  { allowed_dirs := dirs.map fs.resolve
    read_only := ro
    max_file_size_bytes := max_mb * 1024 * 1024 }

/-- `FileHandler._validate_path`: resolve the requested path, then accept it
iff some allowed directory is a component-wise prefix of the resolved path
(`Path.relative_to` succeeds exactly in that case); otherwise raise the
path-violation `ValueError`. -/
def FileHandler.validate_path (h : FileHandler) (fs : FS) (p : RawPath) :
    Except Err AbsPath :=
  let target_path := fs.resolve p
  if h.allowed_dirs.any (fun d => d.isPrefixOf target_path) then .ok target_path
  else .error .pathViolation

/-- One entry of a directory listing (`modified` timestamp not modelled). -/
structure DirEntry where
  name : String
  path : AbsPath
  type : String
  size : Option Nat
deriving DecidableEq, Repr

/-- The direct children of a directory (`Path.iterdir`). -/
def FS.childrenOf (fs : FS) (p : AbsPath) : List (AbsPath × Node) :=
  fs.entries.filter (fun e => e.1.length == p.length + 1 && p.isPrefixOf e.1)

/-- Stable insertion sort, standing in for Python's stable `sorted`. -/
def insertSorted (le : α → α → Bool) (a : α) : List α → List α
  | [] => [a]
  | b :: l => if le a b then a :: b :: l else b :: insertSorted le a l

/-- Stable sort by a boolean comparison (Python `sorted(items, key=...)`). -/
def sortedBy (le : α → α → Bool) : List α → List α
  | [] => []
  | a :: l => insertSorted le a (sortedBy le l)

/-- Sort key of `list_directory`: directories first, then by name. -/
def dirEntryLe (a b : DirEntry) : Bool :=
  let ka : Bool := a.type != "directory"
  let kb : Bool := b.type != "directory"
  (ka == kb && decide (a.name ≤ b.name)) || (!ka && kb)

/-- `FileHandler.list_directory`. -/
def FileHandler.list_directory (h : FileHandler) (fs : FS) (p : RawPath) :
    Except Err (List DirEntry) := do
  let dir_path ← h.validate_path fs p
  match fs.nodeAt dir_path with
  | none => .error .notFound
  | some (.link _) => .error .notFound
  | some (.file _) => .error .notADirectory
  | some .dir =>
    let items := (fs.childrenOf dir_path).map (fun e =>
      { name := e.1.getLastD ""
        path := e.1
        type := match e.2 with | .dir => "directory" | _ => "file"
        size := match e.2 with | .file d => some d.size | _ => none : DirEntry })
    .ok (sortedBy dirEntryLe items)

/-- The placeholder string returned when decoding a file as UTF-8 fails:
`"[Binary file, {n} bytes]"`. -/
def binaryPlaceholder (n : Nat) : Str :=
  "[Binary file, ".toList ++ Nat.toDigits 10 n ++ " bytes]".toList

/-- `FileHandler.read_file`. -/
def FileHandler.read_file (h : FileHandler) (fs : FS) (p : RawPath) :
    Except Err Str := do
  let file_path ← h.validate_path fs p
  match fs.nodeAt file_path with
  | none => .error .notFound
  | some (.link _) => .error .notFound
  | some .dir => .error .notAFile
  | some (.file d) =>
    if d.size > h.max_file_size_bytes then .error .tooLarge
    else
      match d with
      | .text s => .ok s
      | .binary n => .ok (binaryPlaceholder n)

/-- Replace (or create) the node stored at a canonical path. -/
def FS.setEntry (fs : FS) (p : AbsPath) (n : Node) : FS :=
  { fs with entries := (p, n) :: fs.entries.filter (fun e => !(e.1 == p)) }

/-- Remove the node stored at a canonical path. -/
def FS.removeEntry (fs : FS) (p : AbsPath) : FS :=
  { fs with entries := fs.entries.filter (fun e => !(e.1 == p)) }

/-- `parent.mkdir(parents=True, exist_ok=True)`: ensure every path of `ps`
(the ancestor chain, shortest first) is a directory, creating the missing
ones; fails if one of them exists and is not a directory.  On failure the
original state is returned (nothing below a non-directory ancestor can have
been created). -/
def FS.mkdirParents (fs : FS) : List AbsPath → Except Err FS
  | [] => .ok fs
  | p :: rest =>
    match fs.nodeAt p with
    | some .dir => fs.mkdirParents rest
    | none => (fs.setEntry p .dir).mkdirParents rest
    | some _ => .error .notADirectory

/-- The proper ancestors of a canonical path below the root, shortest
first: `q.take 1, …, q.take (q.length - 1)`. -/
def properParents (q : AbsPath) : List AbsPath :=
  ((List.range q.length).drop 1).map (fun i => q.take i)

/-- `FileHandler.write_file`: read-only check, path validation, encoded
size check, parent-directory creation, then the write.  Opening a
directory for writing raises `IsADirectoryError`; a path that still ends
at a symlink after resolution (loop guard) errors at `open`. -/
def FileHandler.write_file (h : FileHandler) (fs : FS) (p : RawPath) (content : Str) :
    Except Err Unit × FS :=
  if h.read_only then (.error .readOnly, fs)
  else
    match h.validate_path fs p with
    | .error e => (.error e, fs)
    | .ok file_path =>
      if utf8Len content > h.max_file_size_bytes then (.error .tooLarge, fs)
      else
        match fs.mkdirParents (properParents file_path) with
        | .error e => (.error e, fs)
        | .ok fs' =>
          match fs'.nodeAt file_path with
          | some .dir => (.error .isADirectory, fs')
          | some (.link _) => (.error .ioError, fs')
          | _ => (.ok (), fs'.setEntry file_path (.file (.text content)))

/-- `FileHandler.create_directory`. -/
def FileHandler.create_directory (h : FileHandler) (fs : FS) (p : RawPath) :
    Except Err Unit × FS :=
  if h.read_only then (.error .readOnly, fs)
  else
    match h.validate_path fs p with
    | .error e => (.error e, fs)
    | .ok dir_path =>
      match fs.nodeAt dir_path with
      | some _ => (.error .alreadyExists, fs)
      | none =>
        match fs.mkdirParents (properParents dir_path) with
        | .error e => (.error e, fs)
        | .ok fs' => (.ok (), fs'.setEntry dir_path .dir)

/-- `FileHandler.delete_path`: deletes a file directly; a directory only
when `iterdir()` yields nothing, otherwise the non-empty-directory
`ValueError`. -/
def FileHandler.delete_path (h : FileHandler) (fs : FS) (p : RawPath) :
    Except Err Unit × FS :=
  if h.read_only then (.error .readOnly, fs)
  else
    match h.validate_path fs p with
    | .error e => (.error e, fs)
    | .ok target_path =>
      match fs.nodeAt target_path with
      | none => (.error .notFound, fs)
      | some (.link _) => (.error .notFound, fs)
      | some (.file _) => (.ok (), fs.removeEntry target_path)
      | some .dir =>
        if (fs.childrenOf target_path).isEmpty then (.ok (), fs.removeEntry target_path)
        else (.error .notEmpty, fs)

/-- Python `s.lower()`. -/
def lowerStr (s : Str) : Str := s.map Char.toLower

/-- Python `pat in s` (substring containment). -/
def containsSub (s pat : Str) : Bool :=
  s.tails.any (fun t => pat.isPrefixOf t)

/-- `pattern_lower in line.lower()`: case-insensitive containment with the
pattern already lowered once. -/
def containsCI (s pat : Str) : Bool := containsSub (lowerStr s) (lowerStr pat)

/-- Python `str.splitlines()` (newline model: `'\n'`). -/
def splitOnNl : Str → List Str
  | [] => [[]]
  | c :: rest =>
    let r := splitOnNl rest
    if c = '\n' then [] :: r
    else
      match r with
      | [] => [[c]]
      | x :: xs => (c :: x) :: xs

/-- `content.splitlines()`: like splitting on `'\n'` but without a trailing
empty line. -/
def splitLines (s : Str) : List Str :=
  let parts := splitOnNl s
  if parts.getLastD [] = [] then parts.dropLast else parts

/-- Python `line.strip()`. -/
def stripStr (s : Str) : Str :=
  ((s.dropWhile Char.isWhitespace).reverse.dropWhile Char.isWhitespace).reverse

/-- One line match of `search_files`: 1-based line number and the excerpt
`line.strip()[:100]`. -/
structure SearchMatch where
  line : Nat
  text : Str
deriving DecidableEq, Repr

/-- One per-file result of `search_files` (`matches` in the source; that
word is reserved here). -/
structure SearchResult where
  path : AbsPath
  line_matches : List SearchMatch
deriving DecidableEq, Repr

/-- The per-file match list: enumerate the lines from 1, keep those whose
lowering contains the lowered pattern, stop after 5, and excerpt each as
`line.strip()[:100]`. -/
def fileMatches (pat : String) (lines : List Str) : List SearchMatch :=
  (((lines.enumFrom 1).filter (fun li => containsCI li.2 pat.toList)).take 5).map
    (fun li => { line := li.1, text := (stripStr li.2).take 100 })

/-- The inner `search_file` coroutine of `search_files`: skip files over
the size limit, skip undecodable files (the `UnicodeDecodeError` is caught
and logged), and return the per-file matches when the lowered content
contains the lowered pattern. -/
def searchFileAt (h : FileHandler) (fs : FS) (pat : String) (fp : AbsPath) :
    Option SearchResult :=
  match fs.nodeAt fp with
  | some (.file d) =>
    if d.size > h.max_file_size_bytes then none
    else
      match d with
      | .binary _ => none
      | .text s =>
        if containsCI s pat.toList then
          some { path := fp, line_matches := fileMatches pat (splitLines s) }
        else none
  | _ => none

/-- `os.walk` enumeration of the regular files strictly below a directory,
in filesystem-entry order (the OS directory order is unspecified but
deterministic for a stable snapshot). -/
def FS.walkFiles (fs : FS) (root : AbsPath) : List AbsPath :=
  (fs.entries.filter (fun e =>
    root.isPrefixOf e.1 && e.1.length != root.length &&
      (match e.2 with | .file _ => true | _ => false))).map (fun e => e.1)

/-- `FileHandler.search_files`: validate the root, check existence, cap the
candidate set at `2 * max_results` files in walk order, scan each candidate
with `search_file`, and return at most `max_results` per-file results. -/
def FileHandler.search_files (h : FileHandler) (fs : FS) (p : RawPath)
    (pat : String) (max_results : Nat) : Except Err (List SearchResult) := do
  let search_path ← h.validate_path fs p
  match fs.nodeAt search_path with
  | none => .error .notFound
  | some (.link _) => .error .notFound
  | some _ =>
    let files_to_search := (fs.walkFiles search_path).take (max_results * 2)
    .ok ((files_to_search.filterMap (searchFileAt h fs pat)).take max_results)

/-- Default of the `max_results` parameter of `search_files`. -/
def searchFilesDefaultMaxResults : Nat := 100

/-- The arguments object of a `search_files` tool call.  The JSON arguments
dictionary may carry a `max_results` member, so it is part of the model of
the call. -/
structure SearchFilesArguments where
  path : RawPath
  pattern : String
  max_results : Option Nat
deriving DecidableEq, Repr

/-- The `tools/call` dispatch for `search_files` in `mcp_server.py`
(`handle_mcp_request`): it forwards only `arguments["path"]` and
`arguments["pattern"]`, so the call always runs with the default
`max_results = 100`, whatever the arguments dictionary contains. -/
def handleSearchFilesCall (h : FileHandler) (fs : FS)
    (args : SearchFilesArguments) : Except Err (List SearchResult) :=
  h.search_files fs args.path args.pattern searchFilesDefaultMaxResults

/-- The last `n` elements of a list (the tail window of a filtered read). -/
def lastN (n : Nat) (xs : List α) : List α := xs.drop (xs.length - n)

/-- The lines considered by a filtered read: the last `tailLines` lines when
given, the whole source otherwise. -/
def tailWindow (tail_lines : Option Nat) (src : List Str) : List Str :=
  match tail_lines with
  | some n => lastN n src
  | none => src

/-- The qualifying lines of a filtered read: those containing the filter
pattern case-insensitively, or all window lines when no pattern is given. -/
def filterQual (filter_pattern : Option Str) (window : List Str) : List Str :=
  match filter_pattern with
  | some pat => window.filter (fun l => containsCI l pat)
  | none => window

/-- Result of a filtered read: the returned lines plus the bookkeeping
fields of the design's `FilteredReadResult`. -/
structure FilteredReadResult where
  lines : List Str
  lines_returned : Nat
  total_lines_in_source_window : Nat
  truncated : Bool
deriving DecidableEq, Repr

/-- Modelled from the spec: `FileHandler.read_file_filtered` is invoked by
the dispatch layer (`mcp_server.py`, tool `read_file_filtered`) but its
implementation is not present under `src/`.  Following the design contract
`readFiltered(path, filterPattern?, tailLines?, maxLines=1000)`: validate
the path; if `tailLines` is given only the last N lines of the source are
considered; if `filterPattern` is given only lines containing it
case-insensitively are kept; the result is capped at `maxLines` with the
`truncated` flag set when more qualifying lines exist than are returned. -/
def FileHandler.read_file_filtered (h : FileHandler) (fs : FS) (p : RawPath)
    (filter_pattern : Option Str) (tail_lines : Option Nat) (max_lines : Nat) :
    Except Err FilteredReadResult := do
  let file_path ← h.validate_path fs p
  match fs.nodeAt file_path with
  | none => .error .notFound
  | some (.link _) => .error .notFound
  | some .dir => .error .notAFile
  | some (.file (.binary _)) => .error .ioError
  | some (.file (.text s)) =>
    let window := tailWindow tail_lines (splitLines s)
    let qualifying := filterQual filter_pattern window
    let out := qualifying.take max_lines
    .ok { lines := out
          lines_returned := out.length
          total_lines_in_source_window := window.length
          truncated := decide (out.length < qualifying.length) }

/-- Default of the `max_lines` argument applied by the dispatch layer
(`arguments.get("max_lines", 1000)`). -/
def readFilteredDefaultMaxLines : Nat := 1000

/-! ### Basic lemmas about the filesystem map -/

theorem lookup_filter_ne {β : Type} (l : List (AbsPath × β)) (a p : AbsPath) (hne : a ≠ p) :
    (l.filter (fun e => !(e.1 == p))).lookup a = l.lookup a := by
  induction l with
  | nil => rfl
  | cons e l ih =>
    by_cases hep : e.1 = p
    · have : (e.1 == p) = true := beq_iff_eq.mpr hep
      have hae : (a == e.1) = false := by
        simp only [beq_eq_false_iff_ne]
        exact fun hc => hne (hc.trans hep)
      simp [List.filter, this, List.lookup, hae, ih]
    · have : (e.1 == p) = false := by simpa using hep
      simp [List.filter, this, List.lookup, ih]

theorem nodeAt_setEntry_self (fs : FS) (p : AbsPath) (n : Node) (hp : p ≠ []) :
    (fs.setEntry p n).nodeAt p = some n := by
  simp [FS.setEntry, FS.nodeAt, hp, List.lookup]

theorem nodeAt_setEntry_ne (fs : FS) (p a : AbsPath) (n : Node) (ha : a ≠ p) :
    (fs.setEntry p n).nodeAt a = fs.nodeAt a := by
  by_cases h0 : a = []
  · simp [FS.setEntry, FS.nodeAt, h0]
  · have : (a == p) = false := by simpa using ha
    simp [FS.setEntry, FS.nodeAt, h0, List.lookup, this, lookup_filter_ne _ _ _ ha]

theorem cwd_setEntry (fs : FS) (p : AbsPath) (n : Node) : (fs.setEntry p n).cwd = fs.cwd := rfl

theorem linkAt_setEntry_nonlink (fs : FS) (p a : AbsPath) (n : Node)
    (hn : ∀ t, n ≠ .link t) (hold : ∀ t, fs.nodeAt p ≠ some (.link t)) :
    (fs.setEntry p n).linkAt a = fs.linkAt a := by
  by_cases ha : a = p
  · subst ha
    by_cases hp : a = []
    · have : (fs.setEntry a n).nodeAt a = fs.nodeAt a := by
        simp [FS.setEntry, FS.nodeAt, hp]
      simp [FS.linkAt, this]
    · rw [FS.linkAt, FS.linkAt, nodeAt_setEntry_self fs a n hp]
      cases n with
      | link t => exact absurd rfl (hn t)
      | file d =>
        cases hfs : fs.nodeAt a with
        | none => rfl
        | some m => cases m with
          | link t => exact absurd hfs (hold t)
          | file _ => rfl
          | dir => rfl
      | dir =>
        cases hfs : fs.nodeAt a with
        | none => rfl
        | some m => cases m with
          | link t => exact absurd hfs (hold t)
          | file _ => rfl
          | dir => rfl
  · rw [FS.linkAt, FS.linkAt, nodeAt_setEntry_ne fs p a n ha]

/-! ### Lemmas about `_validate_path` -/

theorem validate_path_out (h : FileHandler) (fs : FS) (p : RawPath)
    (hout : ∀ r ∈ h.allowed_dirs, r.isPrefixOf (fs.resolve p) = false) :
    h.validate_path fs p = .error .pathViolation := by
  have : (h.allowed_dirs.any (fun d => d.isPrefixOf (fs.resolve p))) = false := by
    rw [List.any_eq_false]
    intro r hr
    simp [hout r hr]
  simp [FileHandler.validate_path, this]

theorem validate_path_ok_of (h : FileHandler) (fs : FS) (p : RawPath) (r : AbsPath)
    (hr : r ∈ h.allowed_dirs) (hpre : r.isPrefixOf (fs.resolve p) = true) :
    h.validate_path fs p = .ok (fs.resolve p) := by
  have : (h.allowed_dirs.any (fun d => d.isPrefixOf (fs.resolve p))) = true :=
    List.any_eq_true.mpr ⟨r, hr, hpre⟩
  simp [FileHandler.validate_path, this]

theorem validate_path_ok_elim (h : FileHandler) (fs : FS) (p : RawPath) (q : AbsPath)
    (hok : h.validate_path fs p = .ok q) :
    q = fs.resolve p ∧ h.allowed_dirs.any (fun d => d.isPrefixOf q) = true := by
  by_cases hany : (h.allowed_dirs.any (fun d => d.isPrefixOf (fs.resolve p))) = true
  · simp [FileHandler.validate_path, hany] at hok
    subst hok
    exact ⟨rfl, hany⟩
  · have hany' : (h.allowed_dirs.any (fun d => d.isPrefixOf (fs.resolve p))) = false := by
      simpa using hany
    simp [FileHandler.validate_path, hany'] at hok

/-! ### Error propagation: a failed validation fails each operation -/

theorem list_directory_validate_err (h : FileHandler) (fs : FS) (p : RawPath) (e : Err)
    (hv : h.validate_path fs p = .error e) : h.list_directory fs p = .error e := by
  simp [FileHandler.list_directory, hv, bind, Except.bind]

theorem read_file_validate_err (h : FileHandler) (fs : FS) (p : RawPath) (e : Err)
    (hv : h.validate_path fs p = .error e) : h.read_file fs p = .error e := by
  simp [FileHandler.read_file, hv, bind, Except.bind]

theorem read_file_filtered_validate_err (h : FileHandler) (fs : FS) (p : RawPath)
    (fp : Option Str) (tl : Option Nat) (ml : Nat) (e : Err)
    (hv : h.validate_path fs p = .error e) :
    h.read_file_filtered fs p fp tl ml = .error e := by
  simp [FileHandler.read_file_filtered, hv, bind, Except.bind]

theorem search_files_validate_err (h : FileHandler) (fs : FS) (p : RawPath)
    (pat : String) (mr : Nat) (e : Err)
    (hv : h.validate_path fs p = .error e) : h.search_files fs p pat mr = .error e := by
  simp [FileHandler.search_files, hv, bind, Except.bind]

theorem write_file_validate_err (h : FileHandler) (fs : FS) (p : RawPath) (content : Str)
    (e : Err) (hro : h.read_only = false) (hv : h.validate_path fs p = .error e) :
    h.write_file fs p content = (.error e, fs) := by
  simp [FileHandler.write_file, hro, hv]

theorem create_directory_validate_err (h : FileHandler) (fs : FS) (p : RawPath)
    (e : Err) (hro : h.read_only = false) (hv : h.validate_path fs p = .error e) :
    h.create_directory fs p = (.error e, fs) := by
  simp [FileHandler.create_directory, hro, hv]

theorem delete_path_validate_err (h : FileHandler) (fs : FS) (p : RawPath)
    (e : Err) (hro : h.read_only = false) (hv : h.validate_path fs p = .error e) :
    h.delete_path fs p = (.error e, fs) := by
  simp [FileHandler.delete_path, hro, hv]

theorem write_file_untouched (h : FileHandler) (fs : FS) (p : RawPath) (content : Str)
    (hv : ∀ q, h.validate_path fs p ≠ .ok q) :
    (h.write_file fs p content).2 = fs ∧ ∃ e, (h.write_file fs p content).1 = .error e := by
  by_cases hro : h.read_only
  · simp [FileHandler.write_file, hro]
  · cases hveq : h.validate_path fs p with
    | ok q => exact absurd hveq (hv q)
    | error e => simp [FileHandler.write_file, hro, hveq]

theorem create_directory_untouched (h : FileHandler) (fs : FS) (p : RawPath)
    (hv : ∀ q, h.validate_path fs p ≠ .ok q) :
    (h.create_directory fs p).2 = fs ∧ ∃ e, (h.create_directory fs p).1 = .error e := by
  by_cases hro : h.read_only
  · simp [FileHandler.create_directory, hro]
  · cases hveq : h.validate_path fs p with
    | ok q => exact absurd hveq (hv q)
    | error e => simp [FileHandler.create_directory, hro, hveq]

theorem delete_path_untouched (h : FileHandler) (fs : FS) (p : RawPath)
    (hv : ∀ q, h.validate_path fs p ≠ .ok q) :
    (h.delete_path fs p).2 = fs ∧ ∃ e, (h.delete_path fs p).1 = .error e := by
  by_cases hro : h.read_only
  · simp [FileHandler.delete_path, hro]
  · cases hveq : h.validate_path fs p with
    | ok q => exact absurd hveq (hv q)
    | error e => simp [FileHandler.delete_path, hro, hveq]

/-! ### Lemmas about path resolution -/

/-- A component that survives canonicalization. -/
def goodComp (c : String) : Prop := c ≠ "" ∧ c ≠ "." ∧ c ≠ ".."

/-- A path is canonical for a filesystem when its components are plain
names and no nonempty prefix of it is a symlink. -/
def FS.canonicalPath (fs : FS) (q : AbsPath) : Prop :=
  (∀ c ∈ q, goodComp c) ∧ (∀ s : AbsPath, s ≠ [] → s <+: q → fs.linkAt s = none)

/-- Resolution only consults the symlink table: two filesystems with the
same symlinks resolve every input identically. -/
theorem resolveComps_congr (fs fs' : FS) (hl : ∀ a, fs'.linkAt a = fs.linkAt a) :
    ∀ (fuel : Nat) (cur : AbsPath) (rest : List String),
      resolveComps fs' fuel cur rest = resolveComps fs fuel cur rest := by
  intro fuel
  induction fuel using Nat.strong_induction_on with
  | _ fuel ihf =>
    intro cur rest
    induction rest generalizing cur with
    | nil => simp [resolveComps]
    | cons c rest ih =>
      simp only [resolveComps]
      by_cases h1 : c = "" ∨ c = "."
      · simp only [h1, if_true, ih]
      · by_cases h2 : c = ".."
        · simp only [h1, h2, if_false, if_true, ih]
        · simp only [h1, h2, if_false]
          rw [hl (cur ++ [c])]
          cases hlk : fs.linkAt (cur ++ [c]) with
          | none => exact ih (cur ++ [c])
          | some tgt =>
            cases fuel with
            | zero => simp only [ih (cur ++ [c])]
            | succ fuel' =>
              by_cases ha : tgt.absolute
              · simp only [ha, if_true, ihf fuel' (Nat.lt_succ_self fuel')]
              · simp only [ha, Bool.false_eq_true, if_false,
                  ihf fuel' (Nat.lt_succ_self fuel')]

/-- Resolution of an already-canonical path is the identity (and clean). -/
theorem resolveComps_fixpoint (fs : FS) :
    ∀ (rest : List String) (cur : AbsPath) (fuel : Nat),
      (∀ c ∈ rest, goodComp c) →
      (∀ s : AbsPath, s ≠ [] → s <+: (cur ++ rest) → fs.linkAt s = none) →
      resolveComps fs fuel cur rest = (cur ++ rest, true) := by
  intro rest
  induction rest with
  | nil => intro cur fuel _ _; simp [resolveComps]
  | cons c rest ih =>
    intro cur fuel hg hl
    obtain ⟨hc1, hc2, hc3⟩ := hg c (by simp)
    have h1 : ¬(c = "" ∨ c = ".") := by simp [hc1, hc2]
    have hpre : cur ++ [c] <+: cur ++ c :: rest := by
      have hp : cur ++ [c] <+: (cur ++ [c]) ++ rest := List.prefix_append _ _
      rwa [List.append_assoc, List.singleton_append] at hp
    have hlc : fs.linkAt (cur ++ [c]) = none := hl (cur ++ [c]) (by simp) hpre
    simp only [resolveComps, h1, hc3, if_false, hlc]
    rw [ih (cur ++ [c]) fuel (fun d hd => hg d (by simp [hd]))
      (fun s hs hsp => hl s hs (by simpa using hsp))]
    simp

/-- A clean resolution produces a canonical path, provided the starting
prefix is canonical. -/
theorem resolveComps_canonical (fs : FS) :
    ∀ (fuel : Nat) (cur : AbsPath) (rest : List String) (q : AbsPath),
      (∀ c ∈ cur, goodComp c) →
      (∀ s : AbsPath, s ≠ [] → s <+: cur → fs.linkAt s = none) →
      resolveComps fs fuel cur rest = (q, true) →
      fs.canonicalPath q := by
  intro fuel
  induction fuel using Nat.strong_induction_on with
  | _ fuel ihf =>
    intro cur rest
    induction rest generalizing cur with
    | nil =>
      intro q hg hl hres
      simp [resolveComps] at hres
      exact ⟨hres ▸ hg, hres ▸ hl⟩
    | cons c rest ih =>
      intro q hg hl hres
      simp only [resolveComps] at hres
      by_cases h1 : c = "" ∨ c = "."
      · simp only [h1, if_true] at hres
        exact ih cur q hg hl hres
      · by_cases h2 : c = ".."
        · simp only [h1, h2, if_false, if_true] at hres
          refine ih cur.dropLast q ?_ ?_ hres
          · exact fun d hd => hg d ((List.dropLast_sublist cur).subset hd)
          · exact fun s hs hsp =>
              hl s hs (hsp.trans (List.dropLast_prefix cur))
        · simp only [h1, h2, if_false] at hres
          cases hlk : fs.linkAt (cur ++ [c]) with
          | some tgt =>
            rw [hlk] at hres
            cases fuel with
            | zero =>
              replace hres : ((resolveComps fs 0 (cur ++ [c]) rest).1, false) = (q, true) :=
                hres
              exact absurd (congrArg Prod.snd hres) (by simp)
            | succ fuel' =>
              replace hres :
                  (if tgt.absolute then resolveComps fs fuel' [] (tgt.comps ++ rest)
                    else resolveComps fs fuel' cur (tgt.comps ++ rest)) = (q, true) := hres
              by_cases ha : tgt.absolute
              · rw [if_pos ha] at hres
                refine ihf fuel' (Nat.lt_succ_self fuel') [] (tgt.comps ++ rest) q
                  (by simp) ?_ hres
                intro s hs hsp
                exact absurd (List.prefix_nil.mp hsp) hs
              · rw [if_neg ha] at hres
                exact ihf fuel' (Nat.lt_succ_self fuel') cur (tgt.comps ++ rest) q hg hl hres
          | none =>
            rw [hlk] at hres
            replace hres : resolveComps fs fuel (cur ++ [c]) rest = (q, true) := hres
            refine ih (cur ++ [c]) q ?_ ?_ hres
            · intro d hd
              rcases List.mem_append.mp hd with hd | hd
              · exact hg d hd
              · have : d = c := by simpa using hd
                subst this
                refine ⟨?_, ?_, h2⟩ <;> intro hcon <;> exact h1 (by simp [hcon])
            · intro s hs hsp
              rcases List.prefix_concat_iff.mp hsp with hsp | hsp
              · exact hsp ▸ hlk
              · exact hl s hs hsp

/-- Re-resolving the output of a clean resolution returns it unchanged. -/
theorem resolveFull_self (fs : FS) (q : AbsPath) (hc : fs.canonicalPath q) :
    fs.resolveFull ⟨true, q⟩ = (q, true) := by
  have := resolveComps_fixpoint fs q [] symlinkFuel hc.1 (fun s hs hsp => hc.2 s hs (by simpa using hsp))
  simpa [FS.resolveFull] using this

/-- A clean resolution's output is canonical (the working directory, used
as the base of relative paths, is assumed canonical). -/
theorem resolveFull_canonical (fs : FS) (p : RawPath) (q : AbsPath)
    (hcwd : fs.canonicalPath fs.cwd)
    (hres : fs.resolveFull p = (q, true)) : fs.canonicalPath q := by
  rw [FS.resolveFull] at hres
  by_cases ha : p.absolute = true
  · rw [if_pos ha] at hres
    refine resolveComps_canonical fs symlinkFuel [] p.comps q (by simp) ?_ hres
    intro s hs hsp
    exact absurd (List.prefix_nil.mp hsp) hs
  · rw [if_neg ha] at hres
    exact resolveComps_canonical fs symlinkFuel fs.cwd p.comps q hcwd.1 hcwd.2 hres

/-! ### Lemmas about parent-directory creation and writing -/

theorem mkdirParents_ok (ps : List AbsPath) : ∀ (fs : FS),
    (∀ p ∈ ps, fs.nodeAt p = none ∨ fs.nodeAt p = some .dir) →
    ps.Pairwise (· ≠ ·) →
    ∃ fs', fs.mkdirParents ps = .ok fs' ∧
      fs'.cwd = fs.cwd ∧
      (∀ a, fs'.linkAt a = fs.linkAt a) ∧
      (∀ a, a ∉ ps → fs'.nodeAt a = fs.nodeAt a) := by
  induction ps with
  | nil => exact fun fs _ _ => ⟨fs, rfl, rfl, fun _ => rfl, fun _ _ => rfl⟩
  | cons p rest ih =>
    intro fs hok hpw
    have hpwrest : rest.Pairwise (· ≠ ·) := (List.pairwise_cons.mp hpw).2
    have hprest : ∀ r ∈ rest, p ≠ r := (List.pairwise_cons.mp hpw).1
    rcases hok p (by simp) with hp | hp
    · have hpne : p ≠ [] := by
        intro hc
        rw [hc] at hp
        simp [FS.nodeAt] at hp
      have h1nodeNe : ∀ a, a ≠ p → (fs.setEntry p .dir).nodeAt a = fs.nodeAt a :=
        fun a ha => nodeAt_setEntry_ne fs p a .dir ha
      have h1link : ∀ a, (fs.setEntry p .dir).linkAt a = fs.linkAt a := by
        intro a
        refine linkAt_setEntry_nonlink fs p a .dir (fun t => by simp) ?_
        intro t hc
        rw [hp] at hc
        cases hc
      have hok1 : ∀ r ∈ rest, (fs.setEntry p .dir).nodeAt r = none ∨
          (fs.setEntry p .dir).nodeAt r = some .dir := by
        intro r hr
        rw [h1nodeNe r (fun hc => hprest r hr hc.symm)]
        exact hok r (by simp [hr])
      obtain ⟨fs', heq, hcwd, hlink, hnode⟩ := ih (fs.setEntry p .dir) hok1 hpwrest
      refine ⟨fs', ?_, ?_, ?_, ?_⟩
      · simp [FS.mkdirParents, hp, heq]
      · rw [hcwd]; rfl
      · intro a; rw [hlink a, h1link a]
      · intro a ha
        have ha1 : a ≠ p := fun hc => ha (by simp [hc])
        have ha2 : a ∉ rest := fun hc => ha (by simp [hc])
        rw [hnode a ha2, h1nodeNe a ha1]
    · obtain ⟨fs', heq, hcwd, hlink, hnode⟩ :=
        ih fs (fun r hr => hok r (by simp [hr])) hpwrest
      refine ⟨fs', by simp [FS.mkdirParents, hp, heq], hcwd, hlink, ?_⟩
      intro a ha
      exact hnode a (fun hc => ha (by simp [hc]))

theorem properParents_mem_iff (q a : AbsPath) :
    a ∈ properParents q ↔ ∃ i, i ∈ (List.range q.length).drop 1 ∧ a = q.take i := by
  simp [properParents, List.mem_map, eq_comm]

theorem mem_range_drop_one {n i : Nat} (hi : i ∈ (List.range n).drop 1) :
    1 ≤ i ∧ i < n := by
  have hsub : List.Sublist ((List.range n).drop 1) (List.range n) := List.drop_sublist 1 _
  have hin : i ∈ List.range n := hsub.subset hi
  have hlt : i < n := List.mem_range.mp hin
  refine ⟨?_, hlt⟩
  cases n with
  | zero => simp at hin
  | succ m =>
    rw [List.range_succ_eq_map] at hi
    simp at hi
    obtain ⟨j, _, hj⟩ := hi
    omega

theorem properParents_nodup (q : AbsPath) : (properParents q).Pairwise (· ≠ ·) := by
  rw [properParents, List.pairwise_map]
  have hr : ((List.range q.length).drop 1).Pairwise (· < ·) :=
    (List.pairwise_lt_range q.length).sublist (List.drop_sublist 1 _)
  refine hr.imp_of_mem ?_
  intro i j hi hj hij hc
  have hiq : i < q.length := (mem_range_drop_one hi).2
  have hjq : j < q.length := (mem_range_drop_one hj).2
  have h1 : (q.take i).length = i := by
    simp [List.length_take]
    omega
  have h2 : (q.take j).length = j := by
    simp [List.length_take]
    omega
  rw [hc] at h1
  omega

theorem not_mem_properParents (q : AbsPath) : q ∉ properParents q := by
  intro hc
  rw [properParents_mem_iff] at hc
  obtain ⟨i, hi, heq⟩ := hc
  obtain ⟨_, hlt⟩ := mem_range_drop_one hi
  have : q.length = i := by
    conv_lhs => rw [heq]
    simp [List.length_take]
    omega
  omega

theorem properParents_prefix {q a : AbsPath} (ha : a ∈ properParents q) :
    a <+: q := by
  rw [properParents_mem_iff] at ha
  obtain ⟨i, _, heq⟩ := ha
  exact heq ▸ List.take_prefix i q

/-! ### Writing and reading back -/

theorem validate_path_congr (h : FileHandler) (fs fs' : FS)
    (hl : ∀ a, fs'.linkAt a = fs.linkAt a) (hcwd : fs'.cwd = fs.cwd) (p : RawPath) :
    h.validate_path fs' p = h.validate_path fs p := by
  have hres : fs'.resolve p = fs.resolve p := by
    simp [FS.resolve, FS.resolveFull, hcwd, resolveComps_congr fs fs' hl]
  simp [FileHandler.validate_path, hres]

theorem write_file_ok_spec (h : FileHandler) (fs : FS) (p : RawPath) (q : AbsPath)
    (content : Str)
    (hro : h.read_only = false)
    (hval : h.validate_path fs p = .ok q)
    (hsize : utf8Len content ≤ h.max_file_size_bytes)
    (hanc : ∀ a ∈ properParents q, fs.nodeAt a = none ∨ fs.nodeAt a = some .dir)
    (htgt : fs.nodeAt q = none ∨ ∃ d, fs.nodeAt q = some (.file d)) :
    ∃ fs', h.write_file fs p content = (.ok (), fs') ∧
      fs'.cwd = fs.cwd ∧ (∀ a, fs'.linkAt a = fs.linkAt a) ∧
      fs'.nodeAt q = some (.file (.text content)) := by
  obtain ⟨fs1, hmk, hcwd1, hlink1, hnode1⟩ :=
    mkdirParents_ok (properParents q) fs hanc (properParents_nodup q)
  have hq1 : fs1.nodeAt q = fs.nodeAt q := hnode1 q (not_mem_properParents q)
  have hqne : q ≠ [] := by
    intro hc
    subst hc
    rcases htgt with htgt | ⟨d, htgt⟩ <;> simp [FS.nodeAt] at htgt
  have hnotlink : ∀ t, fs1.nodeAt q ≠ some (.link t) := by
    intro t hc
    rw [hq1] at hc
    rcases htgt with htgt | ⟨d, htgt⟩ <;> rw [htgt] at hc <;> cases hc
  have hgt : ¬(utf8Len content > h.max_file_size_bytes) := by omega
  refine ⟨fs1.setEntry q (.file (.text content)), ?_, ?_, ?_, ?_⟩
  · rcases htgt with htgt | ⟨d, htgt⟩ <;>
      simp [FileHandler.write_file, hro, hval, hgt, hmk, hq1, htgt]
  · rw [cwd_setEntry, hcwd1]
  · intro a
    rw [linkAt_setEntry_nonlink fs1 q a _ (fun t => by simp) hnotlink, hlink1 a]
  · exact nodeAt_setEntry_self fs1 q _ hqne

theorem read_file_ok_of_text (h : FileHandler) (fs : FS) (p : RawPath) (q : AbsPath)
    (s : Str)
    (hval : h.validate_path fs p = .ok q)
    (hnode : fs.nodeAt q = some (.file (.text s)))
    (hsize : utf8Len s ≤ h.max_file_size_bytes) :
    h.read_file fs p = .ok s := by
  have hgt : ¬((FileData.text s).size > h.max_file_size_bytes) := by
    simp [FileData.size]
    omega
  simp [FileHandler.read_file, hval, hnode, hgt, bind, Except.bind]

theorem write_file_too_large (h : FileHandler) (fs : FS) (p : RawPath) (q : AbsPath)
    (content : Str)
    (hro : h.read_only = false)
    (hval : h.validate_path fs p = .ok q)
    (hbig : utf8Len content > h.max_file_size_bytes) :
    h.write_file fs p content = (.error .tooLarge, fs) := by
  simp [FileHandler.write_file, hro, hval, hbig]

/-! ### Lemmas about the content search -/

theorem search_files_ok_elim (h : FileHandler) (fs : FS) (p : RawPath) (pat : String)
    (mr : Nat) (rs : List SearchResult)
    (hok : h.search_files fs p pat mr = .ok rs) :
    ∃ q, h.validate_path fs p = .ok q ∧
      rs = (((fs.walkFiles q).take (mr * 2)).filterMap (searchFileAt h fs pat)).take mr := by
  cases hval : h.validate_path fs p with
  | error e => simp [FileHandler.search_files, hval, bind, Except.bind] at hok
  | ok q =>
    refine ⟨q, rfl, ?_⟩
    rw [FileHandler.search_files] at hok
    simp only [hval, bind, Except.bind] at hok
    cases hnode : fs.nodeAt q with
    | none => rw [hnode] at hok; cases hok
    | some n =>
      rw [hnode] at hok
      cases n with
      | link t => cases hok
      | file d =>
        replace hok :
            (Except.ok ((((fs.walkFiles q).take (mr * 2)).filterMap
              (searchFileAt h fs pat)).take mr) : Except Err (List SearchResult)) =
              .ok rs := hok
        cases hok
        rfl
      | dir =>
        replace hok :
            (Except.ok ((((fs.walkFiles q).take (mr * 2)).filterMap
              (searchFileAt h fs pat)).take mr) : Except Err (List SearchResult)) =
              .ok rs := hok
        cases hok
        rfl

theorem search_files_length_le (h : FileHandler) (fs : FS) (p : RawPath) (pat : String)
    (mr : Nat) (rs : List SearchResult)
    (hok : h.search_files fs p pat mr = .ok rs) : rs.length ≤ mr := by
  obtain ⟨q, _, hrs⟩ := search_files_ok_elim h fs p pat mr rs hok
  rw [hrs]
  exact List.length_take_le mr _

theorem searchFileAt_some_elim (h : FileHandler) (fs : FS) (pat : String) (fp : AbsPath)
    (r : SearchResult) (hr : searchFileAt h fs pat fp = some r) :
    r.path = fp ∧ ∃ s, fs.nodeAt fp = some (.file (.text s)) ∧
      utf8Len s ≤ h.max_file_size_bytes ∧
      r.line_matches = fileMatches pat (splitLines s) := by
  rw [searchFileAt] at hr
  cases hnode : fs.nodeAt fp with
  | none => rw [hnode] at hr; cases hr
  | some n =>
    rw [hnode] at hr
    cases n with
    | dir => cases hr
    | link t => cases hr
    | file d =>
      by_cases hsz : d.size > h.max_file_size_bytes
      · simp only [hsz, if_true] at hr
        cases hr
      · simp only [hsz, if_false] at hr
        cases d with
        | binary n => cases hr
        | text s =>
          by_cases hct : containsCI s pat.toList
          · simp only [hct, if_true] at hr
            cases hr
            refine ⟨rfl, s, rfl, ?_, rfl⟩
            simp only [FileData.size, Nat.not_lt] at hsz
            exact hsz
          · simp only [hct, if_false] at hr
            cases hr

theorem fileMatches_length_le (pat : String) (lines : List Str) :
    (fileMatches pat lines).length ≤ 5 := by
  rw [fileMatches, List.length_map]
  exact List.length_take_le 5 _

theorem fileMatches_mem_elim (pat : String) (lines : List Str) (m : SearchMatch)
    (hm : m ∈ fileMatches pat lines) :
    ∃ l ∈ lines, containsCI l pat.toList = true ∧ m.text = (stripStr l).take 100 := by
  rw [fileMatches] at hm
  obtain ⟨li, hli, heq⟩ := List.mem_map.mp hm
  have hli2 : li ∈ (lines.enumFrom 1).filter (fun li => containsCI li.2 pat.toList) :=
    (List.take_sublist 5 _).subset hli
  have hpred := List.of_mem_filter hli2
  have hmem : li ∈ lines.enumFrom 1 := List.mem_of_mem_filter hli2
  refine ⟨li.2, ?_, hpred, by rw [← heq]⟩
  obtain ⟨h1, h2, h3⟩ := List.mem_enumFrom hmem
  rw [h3]
  exact List.getElem_mem _

/-! ### Auxiliary lemmas for the claim theorems -/

theorem filterQual_sublist (fpat : Option Str) (w : List Str) :
    List.Sublist (filterQual fpat w) w := by
  cases fpat with
  | none => exact List.Sublist.refl w
  | some pv => exact List.filter_sublist w

theorem mem_filterQual_contains (pv : Str) (w : List Str) (l : Str)
    (hl : l ∈ filterQual (some pv) w) : containsCI l pv = true := by
  simp only [filterQual] at hl
  have := List.of_mem_filter (p := fun l => containsCI l pv) hl
  simpa using this

theorem canonicalPath_single (fs : FS) (c : String) (hg : goodComp c)
    (hl : fs.linkAt [c] = none) : fs.canonicalPath [c] := by
  refine ⟨?_, ?_⟩
  · intro d hd
    have hdc : d = c := by simpa using hd
    rwa [hdc]
  · intro s hs hsp
    have : s = [c] ∨ s <+: ([] : AbsPath) := by
      have := List.prefix_concat_iff.mp (show s <+: [] ++ [c] by simpa using hsp)
      simpa using this
    rcases this with h | h
    · rw [h]; exact hl
    · exact absurd (List.prefix_nil.mp h) hs

/-! ### Concrete fixtures used by witnesses and counterexamples -/

/-- A small concrete filesystem: an allowed tree `/data` holding two text
files, two binary files and a symlink escaping to `/etc/passwd`. -/
def fsW : FS :=
  { entries :=
      [ (["data"], .dir)
      , (["data", "a.txt"], .file (.text "hello\nworld".toList))
      , (["data", "b.txt"], .file (.text "go".toList))
      , (["data", "big.bin"], .file (.binary 999))
      , (["data", "small.bin"], .file (.binary 10))
      , (["data", "link"], .link ⟨true, ["etc", "passwd"]⟩)
      , (["etc"], .dir)
      , (["etc", "passwd"], .file (.text "root".toList)) ]
    cwd := ["home"] }

/-- A handler sandboxed to `/data`, writable, 100-byte size limit. -/
def hW : FileHandler :=
  { allowed_dirs := [["data"]], read_only := false, max_file_size_bytes := 100 }

/-- The same handler in read-only mode. -/
def hRO : FileHandler :=
  { allowed_dirs := [["data"]], read_only := true, max_file_size_bytes := 100 }

/-- A `search_files` tool call whose arguments carry `max_results = 1`. -/
def argsC7 : SearchFilesArguments :=
  { path := ⟨true, ["data"]⟩, pattern := "o", max_results := some 1 }

/-! ### Claim theorems -/

/-- C1: for every requested path whose canonical, symlink-resolved form is
not equal to or a descendant of any allowed root, `_validate_path` fails
with the path-violation error, and every operation fails without touching
storage — the allow-list comparison runs on the fully resolved path, so
this covers paths that escape only through symlinks. -/
theorem pathguard_rejects_outside_sandbox (h : FileHandler) (fs : FS) (p : RawPath)
    (hout : ∀ r ∈ h.allowed_dirs, r.isPrefixOf (fs.resolve p) = false) :
    h.validate_path fs p = .error .pathViolation ∧
    h.list_directory fs p = .error .pathViolation ∧
    h.read_file fs p = .error .pathViolation ∧
    (∀ fpat tl ml, h.read_file_filtered fs p fpat tl ml = .error .pathViolation) ∧
    (∀ pat mr, h.search_files fs p pat mr = .error .pathViolation) ∧
    (∀ content, (h.write_file fs p content).2 = fs ∧
      ∃ e, (h.write_file fs p content).1 = .error e) ∧
    ((h.create_directory fs p).2 = fs ∧ ∃ e, (h.create_directory fs p).1 = .error e) ∧
    ((h.delete_path fs p).2 = fs ∧ ∃ e, (h.delete_path fs p).1 = .error e) := by
  have hv := validate_path_out h fs p hout
  have hv' : ∀ q, h.validate_path fs p ≠ .ok q := by
    rw [hv]
    intro q hc
    cases hc
  exact ⟨hv, list_directory_validate_err _ _ _ _ hv, read_file_validate_err _ _ _ _ hv,
    fun fpat tl ml => read_file_filtered_validate_err _ _ _ fpat tl ml _ hv,
    fun pat mr => search_files_validate_err _ _ _ pat mr _ hv,
    fun content => write_file_untouched _ _ _ content hv',
    create_directory_untouched _ _ _ hv', delete_path_untouched _ _ _ hv'⟩

/-- Witness for C1 at a concrete input: `/data/link` is inside the allowed
root by name but resolves through the symlink to `/etc/passwd`, outside it;
validation rejects it and reads fail. -/
theorem pathguard_rejects_outside_sandbox_witness :
    (∀ r ∈ hW.allowed_dirs, r.isPrefixOf (fsW.resolve ⟨true, ["data", "link"]⟩) = false) ∧
    hW.validate_path fsW ⟨true, ["data", "link"]⟩ = .error .pathViolation ∧
    hW.read_file fsW ⟨true, ["data", "link"]⟩ = .error .pathViolation := by
  have hout : ∀ r ∈ hW.allowed_dirs, r.isPrefixOf (fsW.resolve ⟨true, ["data", "link"]⟩) = false := by
    simp +decide [FS.resolve, FS.resolveFull, resolveComps, fsW, hW, FS.linkAt,
      FS.nodeAt, symlinkFuel, List.lookup, List.isPrefixOf]
  have ht := pathguard_rejects_outside_sandbox hW fsW ⟨true, ["data", "link"]⟩ hout
  exact ⟨hout, ht.1, ht.2.2.1⟩

/-- C9: a requested path that resolves cleanly to a canonical form under an
allowed root validates successfully, and the returned canonical path is a
fixed point: validating it again succeeds with the same path. -/
theorem validate_idempotent (h : FileHandler) (fs : FS) (p : RawPath) (q r : AbsPath)
    (hcwd : fs.canonicalPath fs.cwd)
    (hres : fs.resolveFull p = (q, true))
    (hr : r ∈ h.allowed_dirs) (hpre : r.isPrefixOf q = true) :
    h.validate_path fs p = .ok q ∧ h.validate_path fs ⟨true, q⟩ = .ok q := by
  have hq : fs.resolve p = q := by rw [FS.resolve, hres]
  have h1 : h.validate_path fs p = .ok q := by
    have := validate_path_ok_of h fs p r hr (by rw [hq]; exact hpre)
    rw [hq] at this
    exact this
  have hcanon : fs.canonicalPath q := resolveFull_canonical fs p q hcwd hres
  have hq2 : fs.resolve ⟨true, q⟩ = q := by
    rw [FS.resolve, resolveFull_self fs q hcanon]
  have h2 := validate_path_ok_of h fs ⟨true, q⟩ r hr (by rw [hq2]; exact hpre)
  rw [hq2] at h2
  exact ⟨h1, h2⟩

/-- Witness for C9 at a concrete input: `/data/../data/./a.txt` resolves to
`/data/a.txt`, validates, and the result re-validates to itself. -/
theorem validate_idempotent_witness :
    fsW.resolveFull ⟨true, ["data", "..", "data", ".", "a.txt"]⟩ = (["data", "a.txt"], true) ∧
    hW.validate_path fsW ⟨true, ["data", "..", "data", ".", "a.txt"]⟩ = .ok ["data", "a.txt"] ∧
    hW.validate_path fsW ⟨true, ["data", "a.txt"]⟩ = .ok ["data", "a.txt"] := by
  have hcwd : fsW.canonicalPath fsW.cwd := by
    refine canonicalPath_single fsW "home" (by simp [goodComp]) ?_
    simp +decide [fsW, FS.linkAt, FS.nodeAt, List.lookup]
  have hres : fsW.resolveFull ⟨true, ["data", "..", "data", ".", "a.txt"]⟩ =
      (["data", "a.txt"], true) := by
    simp +decide [FS.resolveFull, resolveComps, fsW, FS.linkAt, FS.nodeAt,
      symlinkFuel, List.lookup]
  have ht := validate_idempotent hW fsW ⟨true, ["data", "..", "data", ".", "a.txt"]⟩
    ["data", "a.txt"] ["data"] hcwd hres (by simp [hW]) (by decide)
  exact ⟨hres, ht.1, ht.2⟩

/-- C10: with an empty allowed-roots list (the unconfigured default, which
also has the read-only flag off), every operation fails with the
path-violation error on every requested path and leaves the filesystem
untouched: the handler is fail-closed. -/
theorem unconfigured_handler_fail_closed (h : FileHandler) (fs : FS) (p : RawPath)
    (hdirs : h.allowed_dirs = []) (hro : h.read_only = false) :
    h.validate_path fs p = .error .pathViolation ∧
    h.list_directory fs p = .error .pathViolation ∧
    h.read_file fs p = .error .pathViolation ∧
    (∀ fpat tl ml, h.read_file_filtered fs p fpat tl ml = .error .pathViolation) ∧
    (∀ pat mr, h.search_files fs p pat mr = .error .pathViolation) ∧
    (∀ content, h.write_file fs p content = (.error .pathViolation, fs)) ∧
    h.create_directory fs p = (.error .pathViolation, fs) ∧
    h.delete_path fs p = (.error .pathViolation, fs) := by
  have hv := validate_path_out h fs p (by rw [hdirs]; intro r hr; cases hr)
  exact ⟨hv, list_directory_validate_err _ _ _ _ hv, read_file_validate_err _ _ _ _ hv,
    fun fpat tl ml => read_file_filtered_validate_err _ _ _ fpat tl ml _ hv,
    fun pat mr => search_files_validate_err _ _ _ pat mr _ hv,
    fun content => write_file_validate_err _ _ _ content _ hro hv,
    create_directory_validate_err _ _ _ _ hro hv,
    delete_path_validate_err _ _ _ _ hro hv⟩

/-- Witness for C10 at a concrete input: a handler with no allowed
directories rejects even a path inside an existing tree. -/
theorem unconfigured_handler_fail_closed_witness :
    ({ allowed_dirs := [], read_only := false, max_file_size_bytes := 100 } : FileHandler).allowed_dirs = [] ∧
    ({ allowed_dirs := [], read_only := false, max_file_size_bytes := 100 } : FileHandler).read_file fsW ⟨true, ["data", "a.txt"]⟩ = .error .pathViolation ∧
    (({ allowed_dirs := [], read_only := false, max_file_size_bytes := 100 } : FileHandler).write_file fsW ⟨true, ["data", "a.txt"]⟩ "x".toList) = (.error .pathViolation, fsW) := by
  have ht := unconfigured_handler_fail_closed
    { allowed_dirs := [], read_only := false, max_file_size_bytes := 100 } fsW
    ⟨true, ["data", "a.txt"]⟩ rfl rfl
  exact ⟨rfl, ht.2.2.1, ht.2.2.2.2.2.1 "x".toList⟩

/-- C2: the filtered-read operation (modelled from the spec, implementation
absent from `src/`): on a sandboxed text file, the returned line count
never exceeds `max_lines`; all returned lines come from the tail window
when `tail_lines` is given; when `filter_pattern` is given every returned
line contains it case-insensitively; and the truncated flag is set exactly
when more qualifying lines exist than were returned. -/
theorem read_file_filtered_spec (h : FileHandler) (fs : FS) (p : RawPath) (q : AbsPath)
    (s : Str) (fpat : Option Str) (tl : Option Nat) (ml : Nat)
    (hval : h.validate_path fs p = .ok q)
    (hnode : fs.nodeAt q = some (.file (.text s))) :
    ∃ res, h.read_file_filtered fs p fpat tl ml = .ok res ∧
      res.lines_returned = res.lines.length ∧
      res.lines.length ≤ ml ∧
      List.Sublist res.lines (tailWindow tl (splitLines s)) ∧
      (∀ pv, fpat = some pv → ∀ l ∈ res.lines, containsCI l pv = true) ∧
      (res.truncated = true ↔
        res.lines_returned < (filterQual fpat (tailWindow tl (splitLines s))).length) := by
  have hok : h.read_file_filtered fs p fpat tl ml = .ok
      { lines := (filterQual fpat (tailWindow tl (splitLines s))).take ml
        lines_returned := ((filterQual fpat (tailWindow tl (splitLines s))).take ml).length
        total_lines_in_source_window := (tailWindow tl (splitLines s)).length
        truncated := decide (((filterQual fpat (tailWindow tl (splitLines s))).take ml).length <
          (filterQual fpat (tailWindow tl (splitLines s))).length) } := by
    simp [FileHandler.read_file_filtered, hval, hnode, bind, Except.bind]
  refine ⟨_, hok, rfl, List.length_take_le _ _, ?_, ?_, ?_⟩
  · exact (List.take_sublist _ _).trans (filterQual_sublist fpat _)
  · intro pv hpv l hl
    subst hpv
    exact mem_filterQual_contains pv _ l ((List.take_sublist _ _).subset hl)
  · simp

/-- Witness for C2 at a concrete input: filtering `/data/a.txt` for the
pattern `"O"` with `max_lines = 1`. -/
theorem read_file_filtered_spec_witness :
    fsW.nodeAt ["data", "a.txt"] = some (.file (.text "hello\nworld".toList)) ∧
    (∃ res, hW.read_file_filtered fsW ⟨true, ["data", "a.txt"]⟩ (some "O".toList)
        none 1 = .ok res ∧ res.lines.length ≤ 1) := by
  have hval : hW.validate_path fsW ⟨true, ["data", "a.txt"]⟩ = .ok ["data", "a.txt"] := by
    simp +decide [FileHandler.validate_path, FS.resolve, FS.resolveFull, resolveComps,
      fsW, hW, FS.linkAt, FS.nodeAt, symlinkFuel, List.lookup, List.isPrefixOf]
  obtain ⟨res, h1, _, h3, _⟩ := read_file_filtered_spec hW fsW ⟨true, ["data", "a.txt"]⟩
    ["data", "a.txt"] "hello\nworld".toList (some "O".toList) none 1 hval (by decide)
  exact ⟨by decide, res, h1, h3⟩

/-- C3 counterexample: the claim quantifies over every in-sandbox path, but
writing to the allowed root itself — an in-sandbox path denoting an
existing directory, with content well under the size limit — fails with
`IsADirectoryError`, and the subsequent read fails with the not-a-file
error rather than returning the content. -/
theorem write_read_roundtrip_cex :
    hW.validate_path fsW ⟨true, ["data"]⟩ = .ok ["data"] ∧
    utf8Len "x".toList ≤ hW.max_file_size_bytes ∧
    hW.write_file fsW ⟨true, ["data"]⟩ "x".toList = (.error .isADirectory, fsW) ∧
    hW.read_file fsW ⟨true, ["data"]⟩ = .error .notAFile := by
  refine ⟨?_, by decide, ?_, ?_⟩
  · simp +decide [FileHandler.validate_path, FS.resolve, FS.resolveFull, resolveComps,
      fsW, hW, FS.linkAt, FS.nodeAt, symlinkFuel, List.lookup, List.isPrefixOf]
  · simp +decide [FileHandler.write_file, FileHandler.validate_path, FS.resolve,
      FS.resolveFull, resolveComps, fsW, hW, FS.linkAt, FS.nodeAt, symlinkFuel,
      List.lookup, List.isPrefixOf, utf8Len, properParents, FS.mkdirParents]
  · simp +decide [FileHandler.read_file, FileHandler.validate_path, FS.resolve,
      FS.resolveFull, resolveComps, fsW, hW, FS.linkAt, FS.nodeAt, symlinkFuel,
      List.lookup, List.isPrefixOf, bind, Except.bind]

/-- C3 amended: in a non-read-only configuration, for an in-sandbox path
whose canonical form does not denote an existing directory (or dangling
link) and whose existing proper ancestors are all directories, writing then
reading returns exactly the written content; and when the UTF-8 encoding of
the content exceeds the size limit, the write fails with the too-large
error before any state change. -/
theorem write_then_read_roundtrip (h : FileHandler) (fs : FS) (p : RawPath) (q : AbsPath)
    (content : Str)
    (hro : h.read_only = false)
    (hval : h.validate_path fs p = .ok q)
    (hanc : ∀ a ∈ properParents q, fs.nodeAt a = none ∨ fs.nodeAt a = some .dir)
    (htgt : fs.nodeAt q = none ∨ ∃ d, fs.nodeAt q = some (.file d)) :
    (utf8Len content ≤ h.max_file_size_bytes →
      ∃ fs', h.write_file fs p content = (.ok (), fs') ∧
        h.read_file fs' p = .ok content) ∧
    (utf8Len content > h.max_file_size_bytes →
      h.write_file fs p content = (.error .tooLarge, fs)) := by
  constructor
  · intro hsize
    obtain ⟨fs', hw, hcwd, hlink, hnode⟩ :=
      write_file_ok_spec h fs p q content hro hval hsize hanc htgt
    refine ⟨fs', hw, ?_⟩
    have hval' : h.validate_path fs' p = .ok q := by
      rw [validate_path_congr h fs fs' hlink hcwd p]
      exact hval
    exact read_file_ok_of_text h fs' p q content hval' hnode hsize
  · intro hbig
    exact write_file_too_large h fs p q content hro hval hbig

/-- Witness for C3 (amended) at a concrete input: writing `"hi"` to the new
nested path `/data/sub/new.txt` then reading it back returns `"hi"`. -/
theorem write_then_read_roundtrip_witness :
    utf8Len "hi".toList ≤ hW.max_file_size_bytes ∧
    (∃ fs', hW.write_file fsW ⟨true, ["data", "sub", "new.txt"]⟩ "hi".toList = (.ok (), fs') ∧
      hW.read_file fs' ⟨true, ["data", "sub", "new.txt"]⟩ = .ok "hi".toList) := by
  have hval : hW.validate_path fsW ⟨true, ["data", "sub", "new.txt"]⟩ =
      .ok ["data", "sub", "new.txt"] := by
    simp +decide [FileHandler.validate_path, FS.resolve, FS.resolveFull, resolveComps,
      fsW, hW, FS.linkAt, FS.nodeAt, symlinkFuel, List.lookup, List.isPrefixOf]
  have ht := write_then_read_roundtrip hW fsW ⟨true, ["data", "sub", "new.txt"]⟩
    ["data", "sub", "new.txt"] "hi".toList rfl hval (by decide) (Or.inl (by decide))
  exact ⟨by decide, ht.1 (by decide)⟩

/-- C4 counterexample: in read-only mode the read-only check precedes path
validation, so an out-of-sandbox write fails with the read-only error, not
the path-violation error. -/
theorem pathguard_first_cex :
    (∀ r ∈ hRO.allowed_dirs, r.isPrefixOf (fsW.resolve ⟨true, ["etc", "passwd"]⟩) = false) ∧
    hRO.write_file fsW ⟨true, ["etc", "passwd"]⟩ "x".toList = (.error .readOnly, fsW) ∧
    Err.readOnly ≠ Err.pathViolation := by
  refine ⟨?_, rfl, by decide⟩
  simp +decide [FS.resolve, FS.resolveFull, resolveComps, fsW, hRO, FS.linkAt,
    FS.nodeAt, symlinkFuel, List.lookup, List.isPrefixOf]

/-- C4 amended: every operation validates before touching storage.  For
out-of-sandbox paths, `list`, `read`, filtered read and `search` fail with
the path-violation error before any other check; `write`, `createDirectory`
and `deletePath` apply the read-only check first, so they fail with the
path-violation error when the handler is writable and with the read-only
error otherwise — in every case before any storage access. -/
theorem operations_validate_before_storage (h : FileHandler) (fs : FS) (p : RawPath)
    (hout : ∀ r ∈ h.allowed_dirs, r.isPrefixOf (fs.resolve p) = false) :
    h.list_directory fs p = .error .pathViolation ∧
    h.read_file fs p = .error .pathViolation ∧
    (∀ fpat tl ml, h.read_file_filtered fs p fpat tl ml = .error .pathViolation) ∧
    (∀ pat mr, h.search_files fs p pat mr = .error .pathViolation) ∧
    (h.read_only = false →
      (∀ content, h.write_file fs p content = (.error .pathViolation, fs)) ∧
      h.create_directory fs p = (.error .pathViolation, fs) ∧
      h.delete_path fs p = (.error .pathViolation, fs)) ∧
    (h.read_only = true →
      (∀ content, h.write_file fs p content = (.error .readOnly, fs)) ∧
      h.create_directory fs p = (.error .readOnly, fs) ∧
      h.delete_path fs p = (.error .readOnly, fs)) := by
  have hv := validate_path_out h fs p hout
  refine ⟨list_directory_validate_err _ _ _ _ hv, read_file_validate_err _ _ _ _ hv,
    fun fpat tl ml => read_file_filtered_validate_err _ _ _ fpat tl ml _ hv,
    fun pat mr => search_files_validate_err _ _ _ pat mr _ hv, ?_, ?_⟩
  · intro hro
    exact ⟨fun content => write_file_validate_err _ _ _ content _ hro hv,
      create_directory_validate_err _ _ _ _ hro hv,
      delete_path_validate_err _ _ _ _ hro hv⟩
  · intro hro
    exact ⟨fun content => by simp [FileHandler.write_file, hro],
      by simp [FileHandler.create_directory, hro],
      by simp [FileHandler.delete_path, hro]⟩

/-- Witness for C4 (amended) at a concrete input: `/etc/passwd` is outside
the sandbox of `hW`; reads fail with the path violation, and the writable
handler's write also fails with the path violation, leaving the state
unchanged. -/
theorem operations_validate_before_storage_witness :
    (∀ r ∈ hW.allowed_dirs, r.isPrefixOf (fsW.resolve ⟨true, ["etc", "passwd"]⟩) = false) ∧
    hW.read_file fsW ⟨true, ["etc", "passwd"]⟩ = .error .pathViolation ∧
    hW.write_file fsW ⟨true, ["etc", "passwd"]⟩ "x".toList = (.error .pathViolation, fsW) := by
  have hout : ∀ r ∈ hW.allowed_dirs,
      r.isPrefixOf (fsW.resolve ⟨true, ["etc", "passwd"]⟩) = false := by
    simp +decide [FS.resolve, FS.resolveFull, resolveComps, fsW, hW, FS.linkAt,
      FS.nodeAt, symlinkFuel, List.lookup, List.isPrefixOf]
  have ht := operations_validate_before_storage hW fsW ⟨true, ["etc", "passwd"]⟩ hout
  exact ⟨hout, ht.2.1, (ht.2.2.2.2.1 rfl).1 "x".toList⟩

/-- C5 counterexample: with the read-only flag set, deleting a non-empty
in-sandbox directory fails with the read-only error — the read-only check
runs first — not with the non-empty error the claim demands in all
configurations. -/
theorem delete_nonempty_cex :
    hRO.validate_path fsW ⟨true, ["data"]⟩ = .ok ["data"] ∧
    fsW.nodeAt ["data"] = some .dir ∧
    (fsW.childrenOf ["data"]).isEmpty = false ∧
    hRO.delete_path fsW ⟨true, ["data"]⟩ = (.error .readOnly, fsW) ∧
    Err.readOnly ≠ Err.notEmpty := by
  refine ⟨?_, by decide, by decide, rfl, by decide⟩
  simp +decide [FileHandler.validate_path, FS.resolve, FS.resolveFull, resolveComps,
    fsW, hRO, FS.linkAt, FS.nodeAt, symlinkFuel, List.lookup, List.isPrefixOf]

/-- C5 amended: in a non-read-only configuration, `delete_path` on a
non-empty in-sandbox directory always fails with the non-empty error and
leaves the filesystem — the directory and all its entries — unchanged; no
recursive delete ever occurs. -/
theorem delete_nonempty_fails_notEmpty (h : FileHandler) (fs : FS) (p : RawPath)
    (q : AbsPath)
    (hro : h.read_only = false)
    (hval : h.validate_path fs p = .ok q)
    (hdir : fs.nodeAt q = some .dir)
    (hne : (fs.childrenOf q).isEmpty = false) :
    h.delete_path fs p = (.error .notEmpty, fs) := by
  simp [FileHandler.delete_path, hro, hval, hdir, hne]

/-- Witness for C5 (amended) at a concrete input: deleting the non-empty
directory `/data` with the writable handler fails with the non-empty error
and changes nothing. -/
theorem delete_nonempty_fails_notEmpty_witness :
    (fsW.childrenOf ["data"]).isEmpty = false ∧
    hW.delete_path fsW ⟨true, ["data"]⟩ = (.error .notEmpty, fsW) := by
  have hval : hW.validate_path fsW ⟨true, ["data"]⟩ = .ok ["data"] := by
    simp +decide [FileHandler.validate_path, FS.resolve, FS.resolveFull, resolveComps,
      fsW, hW, FS.linkAt, FS.nodeAt, symlinkFuel, List.lookup, List.isPrefixOf]
  exact ⟨by decide, delete_nonempty_fails_notEmpty hW fsW ⟨true, ["data"]⟩ ["data"]
    rfl hval (by decide) (by decide)⟩

/-- C6: on a validated existing directory, `search_files` returns
successfully with at most `max_results` file entries; every returned file
carries at most 5 line matches whose excerpts are the matching line
stripped and cut to its first 100 characters; and only decodable files
within the size limit ever appear — oversized files are skipped without
producing an error. -/
theorem search_files_bounded (h : FileHandler) (fs : FS) (p : RawPath) (pat : String)
    (mr : Nat) (q : AbsPath)
    (hval : h.validate_path fs p = .ok q)
    (hdir : fs.nodeAt q = some .dir) :
    ∃ rs, h.search_files fs p pat mr = .ok rs ∧
      rs.length ≤ mr ∧
      (∀ r ∈ rs, r.line_matches.length ≤ 5) ∧
      (∀ r ∈ rs, ∀ m ∈ r.line_matches, ∃ l,
        containsCI l pat.toList = true ∧ m.text = (stripStr l).take 100) ∧
      (∀ r ∈ rs, ∃ s, fs.nodeAt r.path = some (.file (.text s)) ∧
        utf8Len s ≤ h.max_file_size_bytes) := by
  have hok : h.search_files fs p pat mr = .ok
      ((((fs.walkFiles q).take (mr * 2)).filterMap (searchFileAt h fs pat)).take mr) := by
    simp [FileHandler.search_files, hval, hdir, bind, Except.bind]
  have hmem : ∀ r ∈ (((fs.walkFiles q).take (mr * 2)).filterMap
      (searchFileAt h fs pat)).take mr,
      ∃ s, fs.nodeAt r.path = some (.file (.text s)) ∧
        utf8Len s ≤ h.max_file_size_bytes ∧
        r.line_matches = fileMatches pat (splitLines s) := by
    intro r hr
    have hr2 := (List.take_sublist _ _).subset hr
    obtain ⟨fp, _, hsome⟩ := List.mem_filterMap.mp hr2
    obtain ⟨hpath, s, hnode, hsz, hlm⟩ := searchFileAt_some_elim h fs pat fp r hsome
    exact ⟨s, hpath ▸ hnode, hsz, hlm⟩
  refine ⟨_, hok, List.length_take_le _ _, ?_, ?_, ?_⟩
  · intro r hr
    obtain ⟨s, _, _, hlm⟩ := hmem r hr
    rw [hlm]
    exact fileMatches_length_le pat _
  · intro r hr m hm
    obtain ⟨s, _, _, hlm⟩ := hmem r hr
    rw [hlm] at hm
    obtain ⟨l, _, hct, htext⟩ := fileMatches_mem_elim pat _ m hm
    exact ⟨l, hct, htext⟩
  · intro r hr
    obtain ⟨s, hnode, hsz, _⟩ := hmem r hr
    exact ⟨s, hnode, hsz⟩

/-- Witness for C6 at a concrete input: searching `/data` for `"HELL"`. -/
theorem search_files_bounded_witness :
    fsW.nodeAt ["data"] = some .dir ∧
    (∃ rs, hW.search_files fsW ⟨true, ["data"]⟩ "HELL" 10 = .ok rs ∧
      rs.length ≤ 10 ∧ ∀ r ∈ rs, r.line_matches.length ≤ 5) := by
  have hval : hW.validate_path fsW ⟨true, ["data"]⟩ = .ok ["data"] := by
    simp +decide [FileHandler.validate_path, FS.resolve, FS.resolveFull, resolveComps,
      fsW, hW, FS.linkAt, FS.nodeAt, symlinkFuel, List.lookup, List.isPrefixOf]
  obtain ⟨rs, h1, h2, h3, _⟩ := search_files_bounded hW fsW ⟨true, ["data"]⟩ "HELL" 10
    ["data"] hval (by decide)
  exact ⟨by decide, rs, h1, h2, h3⟩

/-- C7 counterexample: a `search_files` tool call whose arguments dictionary
carries `max_results = 1` still returns 2 file entries, because the
dispatch layer never forwards `max_results` — the caller-supplied value is
not the bound applied. -/
theorem search_max_results_arg_cex :
    argsC7.max_results = some 1 ∧
    (∃ rs, handleSearchFilesCall hW fsW argsC7 = .ok rs ∧ 1 < rs.length) := by
  refine ⟨rfl, ?_⟩
  have hok : handleSearchFilesCall hW fsW argsC7 = .ok
      [ { path := ["data", "a.txt"],
          line_matches := [ { line := 1, text := "hello".toList }
                          , { line := 2, text := "world".toList } ] }
      , { path := ["data", "b.txt"],
          line_matches := [ { line := 1, text := "go".toList } ] } ] := by
    simp +decide [handleSearchFilesCall, searchFilesDefaultMaxResults,
      FileHandler.search_files, FileHandler.validate_path, FS.resolve, FS.resolveFull,
      resolveComps, fsW, hW, argsC7, FS.linkAt, FS.nodeAt, symlinkFuel, FS.walkFiles,
      searchFileAt, containsCI, containsSub, lowerStr, FileData.size, utf8Len,
      fileMatches, splitLines, splitOnNl, stripStr, bind, Except.bind, List.lookup,
      List.isPrefixOf]
  exact ⟨_, hok, by simp [hok]⟩

/-- C7 amended: `search_files` itself accepts a `max_results` parameter
(default 100) and caps its result at that bound; but the tool dispatch
forwards only the path and pattern, so every tool call runs with the
default bound 100 — a `max_results` value in the tool arguments is
ignored. -/
theorem search_dispatch_applies_default_cap (h : FileHandler) (fs : FS)
    (args : SearchFilesArguments) :
    handleSearchFilesCall h fs args = h.search_files fs args.path args.pattern 100 ∧
    (∀ mr rs, h.search_files fs args.path args.pattern mr = .ok rs → rs.length ≤ mr) ∧
    (∀ rs, handleSearchFilesCall h fs args = .ok rs → rs.length ≤ 100) := by
  refine ⟨rfl, ?_, ?_⟩
  · intro mr rs hrs
    exact search_files_length_le h fs args.path args.pattern mr rs hrs
  · intro rs hrs
    exact search_files_length_le h fs args.path args.pattern 100 rs hrs

/-- Witness for C7 (amended) at a concrete input: the call of
`search_max_results_arg_cex` equals the default-capped search and its
result respects the default bound. -/
theorem search_dispatch_applies_default_cap_witness :
    handleSearchFilesCall hW fsW argsC7 =
      hW.search_files fsW argsC7.path argsC7.pattern 100 ∧
    (∀ rs, handleSearchFilesCall hW fsW argsC7 = .ok rs → rs.length ≤ 100) := by
  have ht := search_dispatch_applies_default_cap hW fsW argsC7
  exact ⟨ht.1, ht.2.2⟩

/-- C8: for a validated file path, `read_file` fails with the too-large
error whenever the stored size exceeds the limit — regardless of the file's
data, i.e. before any content is read or decoded — and an undecodable
(binary) file within the limit yields the byte-length placeholder string
instead of an error. -/
theorem read_file_size_and_binary (h : FileHandler) (fs : FS) (p : RawPath) (q : AbsPath)
    (hval : h.validate_path fs p = .ok q) :
    (∀ d, fs.nodeAt q = some (.file d) → d.size > h.max_file_size_bytes →
      h.read_file fs p = .error .tooLarge) ∧
    (∀ n, fs.nodeAt q = some (.file (.binary n)) → n ≤ h.max_file_size_bytes →
      h.read_file fs p = .ok (binaryPlaceholder n)) := by
  constructor
  · intro d hnode hbig
    simp [FileHandler.read_file, hval, hnode, hbig, bind, Except.bind]
  · intro n hnode hle
    have hgt : ¬((FileData.binary n).size > h.max_file_size_bytes) := by
      simp only [FileData.size, Nat.not_lt]
      exact hle
    simp [FileHandler.read_file, hval, hnode, hgt, bind, Except.bind]

/-- Witness for C8 at concrete inputs: the oversized binary `/data/big.bin`
reads as too-large; the small binary `/data/small.bin` reads as the
placeholder `"[Binary file, 10 bytes]"`. -/
theorem read_file_size_and_binary_witness :
    hW.read_file fsW ⟨true, ["data", "big.bin"]⟩ = .error .tooLarge ∧
    hW.read_file fsW ⟨true, ["data", "small.bin"]⟩ = .ok (binaryPlaceholder 10) := by
  have hval1 : hW.validate_path fsW ⟨true, ["data", "big.bin"]⟩ = .ok ["data", "big.bin"] := by
    simp +decide [FileHandler.validate_path, FS.resolve, FS.resolveFull, resolveComps,
      fsW, hW, FS.linkAt, FS.nodeAt, symlinkFuel, List.lookup, List.isPrefixOf]
  have hval2 : hW.validate_path fsW ⟨true, ["data", "small.bin"]⟩ = .ok ["data", "small.bin"] := by
    simp +decide [FileHandler.validate_path, FS.resolve, FS.resolveFull, resolveComps,
      fsW, hW, FS.linkAt, FS.nodeAt, symlinkFuel, List.lookup, List.isPrefixOf]
  exact ⟨(read_file_size_and_binary hW fsW ⟨true, ["data", "big.bin"]⟩ ["data", "big.bin"]
      hval1).1 (.binary 999) (by decide) (by decide),
    (read_file_size_and_binary hW fsW ⟨true, ["data", "small.bin"]⟩ ["data", "small.bin"]
      hval2).2 10 (by decide) (by decide)⟩

end HaMcp
